import Mathlib

/-!
A verification development for the BJJ-Analyzer-Rust pipeline core.

Each Rust function under scrutiny is shallow-embedded as an executable Lean
definition that mirrors the source control flow.  External collaborators
(the std hasher, the regex engine, subprocess adapters, the filesystem and
the clock) are passed in as explicit parameters or environment records, so
every embedded function stays pure and computable.  Rust f64 quantities that
the code only multiplies, divides, compares and takes ceilings of are
modelled as exact rationals; machine integers are modelled as Nat with
explicit bounds where they matter.
-/

namespace BJJ

/-! ## Generic list helpers

Rust slice sort (`sort_by`) is a stable sort.  The insertion sort below is
stable for the supplied `le` relation: an element is inserted in front of
the first already-placed element it is `le`-related to, so elements that
compare equal keep their original relative order, matching Rust.
-/

/-- Stable insertion into a sorted list: `a` goes before the first `b` with
`le a b`. -/
def insertLe (le : α → α → Bool) (a : α) : List α → List α
  | [] => [a]
  | b :: l => if le a b then a :: b :: l else b :: insertLe le a l

/-- Stable insertion sort modelling Rust `sort_by` with a total comparator. -/
def sortLe (le : α → α → Bool) : List α → List α
  | [] => []
  | a :: l => insertLe le a (sortLe le l)

theorem mem_insertLe (le : α → α → Bool) (a x : α) :
    ∀ l : List α, x ∈ insertLe le a l ↔ x = a ∨ x ∈ l
  | [] => by simp [insertLe]
  | b :: l => by
    rw [insertLe]
    by_cases h : le a b = true
    · rw [if_pos h]
      simp [or_comm, or_left_comm]
    · rw [if_neg h]
      simp only [List.mem_cons, mem_insertLe le a x l]
      tauto

theorem insertLe_pairwise (le : α → α → Bool)
    (htot : ∀ a b, le a b = true ∨ le b a = true)
    (htrans : ∀ a b c, le a b = true → le b c = true → le a c = true)
    (a : α) (l : List α) (hl : l.Pairwise (fun x y => le x y = true)) :
    (insertLe le a l).Pairwise (fun x y => le x y = true) := by
  induction l with
  | nil => simp [insertLe]
  | cons b t ih =>
    rcases List.pairwise_cons.mp hl with ⟨hb, ht⟩
    by_cases hab : le a b = true
    · rw [insertLe, if_pos hab]
      refine List.pairwise_cons.mpr ⟨?_, hl⟩
      intro x hx
      rcases List.mem_cons.mp hx with rfl | hx
      · exact hab
      · exact htrans a b x hab (hb x hx)
    · rw [insertLe, if_neg hab]
      refine List.pairwise_cons.mpr ⟨?_, ih ht⟩
      have hba : le b a = true := (htot a b).resolve_left hab
      intro x hx
      rcases (mem_insertLe le a x t).mp hx with rfl | hx2
      · exact hba
      · exact hb x hx2

theorem sortLe_pairwise (le : α → α → Bool)
    (htot : ∀ a b, le a b = true ∨ le b a = true)
    (htrans : ∀ a b c, le a b = true → le b c = true → le a c = true) :
    ∀ l : List α, (sortLe le l).Pairwise (fun x y => le x y = true)
  | [] => by simp [sortLe]
  | a :: l => insertLe_pairwise le htot htrans a _ (sortLe_pairwise le htot htrans l)

theorem insertLe_perm (le : α → α → Bool) (a : α) :
    ∀ l : List α, (insertLe le a l).Perm (a :: l)
  | [] => List.Perm.refl _
  | b :: l => by
    rw [insertLe]
    by_cases h : le a b = true
    · rw [if_pos h]
    · rw [if_neg h]
      exact (List.Perm.cons b (insertLe_perm le a l)).trans (List.Perm.swap a b l)

theorem sortLe_perm (le : α → α → Bool) :
    ∀ l : List α, (sortLe le l).Perm l
  | [] => List.Perm.refl _
  | a :: l =>
    ((insertLe_perm le a (sortLe le l)).trans (List.Perm.cons a (sortLe_perm le l)))

theorem mem_sortLe (le : α → α → Bool) (l : List α) (x : α) :
    x ∈ sortLe le l ↔ x ∈ l :=
  (sortLe_perm le l).mem_iff

/-! ## The pipeline state machine (`src/state.rs`)

`ProcessingStage`, `VideoProcessingState` and the `StateManager` operations
`get_or_create_state`, `update_state`, `can_skip_stage`,
`mark_stage_completed` and `next_stage`, embedded one to one.  The clock
(`SystemTime::now`) becomes a `now` parameter, the std `DefaultHasher`
becomes a `hash` parameter, and the filesystem is an explicit value.
-/

/-- `ProcessingStage` from `src/state.rs` (ten variants, declaration order
gives the derived `Ord`). -/
inductive ProcessingStage where
  | Pending
  | VideoAnalysis
  | AudioExtraction
  | AudioEnhancement
  | Transcription
  | LLMCorrection
  | ChapterDetection
  | SubtitleGeneration
  | Completed
  | Error
deriving DecidableEq, Repr

/-- Discriminant order of the Rust enum (derived `PartialOrd`/`Ord`). -/
def ProcessingStage.toNat : ProcessingStage → Nat
  | .Pending => 0
  | .VideoAnalysis => 1
  | .AudioExtraction => 2
  | .AudioEnhancement => 3
  | .Transcription => 4
  | .LLMCorrection => 5
  | .ChapterDetection => 6
  | .SubtitleGeneration => 7
  | .Completed => 8
  | .Error => 9

/-- `GeneratedFiles` from `src/state.rs`; paths are abstract strings. -/
structure GeneratedFiles where
  audio_path : Option String := none
  enhanced_audio_path : Option String := none
  raw_transcript_path : Option String := none
  corrected_transcript_path : Option String := none
  srt_path : Option String := none
  metadata_path : Option String := none
deriving DecidableEq, Repr

/-- `ProcessingMetadata` from `src/state.rs`; f64 fields become exact
rationals, the `HashMap<ProcessingStage, f64>` becomes an association
list. -/
structure ProcessingMetadata where
  duration_seconds : ℚ := 0
  resolution : Nat × Nat := (0, 0)
  frame_rate : ℚ := 0
  audio_sample_rate : Option Nat := none
  transcription_model : Option String := none
  segment_count : Option Nat := none
  corrections_applied : Option Nat := none
  chapters_detected : Option Nat := none
  stage_times : List (ProcessingStage × ℚ) := []
  total_processing_time : ℚ := 0
deriving DecidableEq, Repr

/-- `VideoProcessingState` from `src/state.rs`.  The video path is kept as
a pair (parent directory name, file name) because those are the only two
components the state manager reads from it. -/
structure VideoProcessingState where
  video_parent : String
  video_file_name : String
  video_hash : String
  video_modified : Nat
  current_stage : ProcessingStage
  completed_stages : List ProcessingStage
  generated_files : GeneratedFiles
  metadata : ProcessingMetadata
  last_updated : Nat
  error_message : Option String
deriving DecidableEq, Repr

/-- Insert or overwrite a key in an association list (`HashMap::insert`). -/
def assocInsert [DecidableEq κ] (k : κ) (v : β) : List (κ × β) → List (κ × β)
  | [] => [(k, v)]
  | (k2, v2) :: l => if k2 = k then (k, v) :: l else (k2, v2) :: assocInsert k v l

/-- `StateManager::next_stage`. -/
def nextStage : ProcessingStage → ProcessingStage
  | .Pending => .VideoAnalysis
  | .VideoAnalysis => .AudioExtraction
  | .AudioExtraction => .AudioEnhancement
  | .AudioEnhancement => .Transcription
  | .Transcription => .LLMCorrection
  | .LLMCorrection => .ChapterDetection
  | .ChapterDetection => .SubtitleGeneration
  | .SubtitleGeneration => .Completed
  | .Completed => .Completed
  | .Error => .Error

/-- `StateManager::can_skip_stage`: true iff the stage is already in
`completed_stages`. -/
def canSkipStage (state : VideoProcessingState) (stage : ProcessingStage) : Bool :=
  state.completed_stages.contains stage

/-- `StateManager::mark_stage_completed`.  Pushes the stage if absent,
stores the duration in `metadata.stage_times`, advances `current_stage` to
`next_stage(current_stage)` and bumps `last_updated` to `now`. -/
def markStageCompleted (now : Nat) (state : VideoProcessingState)
    (stage : ProcessingStage) (duration : ℚ) : VideoProcessingState :=
  { state with
    completed_stages :=
      if state.completed_stages.contains stage then state.completed_stages
      else state.completed_stages ++ [stage],
    metadata :=
      { state.metadata with
        stage_times := assocInsert stage duration state.metadata.stage_times },
    current_stage := nextStage state.current_stage,
    last_updated := now }

/-- `StateManager::create_new_state`: a fresh record at `Pending` with the
current modification time.  `hash` stands for the std `DefaultHasher` run
over the path string and the file length. -/
def createNewState (hash : String → Nat → Nat) (parent fileName : String)
    (modified fileLen now : Nat) : VideoProcessingState :=
  { video_parent := parent
    video_file_name := fileName
    video_hash := Nat.toDigits 16 (hash (parent ++ "/" ++ fileName) fileLen) |>.asString
    video_modified := modified
    current_stage := .Pending
    completed_stages := []
    generated_files := {}
    metadata := {}
    last_updated := now
    error_message := none }

/-- Maximum of a list of stages under the discriminant order (used to state
the claimed invariant about `completed_stages`). -/
def maxStage (l : List ProcessingStage) : ProcessingStage :=
  l.foldl (fun a b => if a.toNat < b.toNat then b else a) .Pending

/-- The invariant asserted by claim C2 for a single record: `current_stage`
is the successor of the maximum completed stage, or `Error`. -/
def successorInvariant (s : VideoProcessingState) : Prop :=
  s.current_stage = nextStage (maxStage s.completed_stages) ∨
    s.current_stage = ProcessingStage.Error

instance (s : VideoProcessingState) : Decidable (successorInvariant s) := by
  unfold successorInvariant; infer_instance

/-- Apply a sequence of `mark_stage_completed` operations. -/
def applyMarks (now : Nat) (s : VideoProcessingState)
    (ops : List (ProcessingStage × ℚ)) : VideoProcessingState :=
  ops.foldl (fun st op => markStageCompleted now st op.1 op.2) s

theorem applyMarks_current_stage (now : Nat) (s : VideoProcessingState) :
    ∀ ops : List (ProcessingStage × ℚ),
      (applyMarks now s ops).current_stage = nextStage^[ops.length] s.current_stage := by
  intro ops
  induction ops generalizing s with
  | nil => rfl
  | cons op t ih =>
    show (applyMarks now (markStageCompleted now s op.1 op.2) t).current_stage = _
    rw [ih]
    simp [markStageCompleted, Function.iterate_succ_apply]

/-- C2: the claimed invariant fails on the very first transition: marking
`VideoAnalysis` completed on a fresh record leaves `current_stage` at
`VideoAnalysis` (the maximum completed stage itself), not at its successor
`AudioExtraction`, because `mark_stage_completed` advances from the
previous `current_stage` rather than from the completed stage.  Concrete
refutation of the claim at a one-step sequence. -/
theorem markStageCompleted_breaks_successor_invariant :
    ¬ successorInvariant
      (applyMarks 7
        (createNewState (fun _ _ => 0) "TestFiles" "demo.mp4" 5 100 6)
        [(ProcessingStage.VideoAnalysis, 2)]) := by
  decide

/-- C2 (amended): after any sequence of `mark_stage_completed` operations
on a fresh record, `current_stage` equals `next_stage` iterated once per
operation starting from `Pending`; it depends only on the number of
operations, not on which stages were completed, so it coincides with the
successor of the maximum completed stage only by accident. -/
theorem applyMarks_fresh_current_stage
    (hash : String → Nat → Nat) (parent fileName : String)
    (modified fileLen now now2 : Nat) (ops : List (ProcessingStage × ℚ)) :
    (applyMarks now2 (createNewState hash parent fileName modified fileLen now) ops).current_stage
      = nextStage^[ops.length] ProcessingStage.Pending :=
  applyMarks_current_stage now2 _ ops

/-! ## State persistence (`update_state`, `save_state_to_disk`,
`get_or_create_state`)

The filesystem is reified: a disk mutation is an explicit `FsOp` value and
`save_state_to_disk` returns the exact sequence of operations it performs.
Serialization (`serde_json::to_string_pretty`) is an external collaborator
and becomes a `ser` parameter.
-/

/-- A single filesystem mutation performed by the state store. -/
inductive FsOp where
  | write (path content : String)
  | renameFile (src dst : String)
deriving DecidableEq, Repr

/-- Rust `str::replace` with a single-character pattern and a
single-character replacement. -/
def charReplace (c r : Char) (s : String) : String :=
  String.mk (s.data.map fun x => if x = c then r else x)

/-- The sidecar file name from `save_state_to_disk`: the video file name
with spaces then dots replaced by underscores, plus `.json`. -/
def sidecarFileName (videoFileName : String) : String :=
  charReplace '.' '_' (charReplace ' ' '_' videoFileName) ++ ".json"

/-- `StateManager::generate_state_key`: parent directory name joined to the
file name by an underscore. -/
def generateStateKey (parent fileName : String) : String :=
  parent ++ "_" ++ fileName

/-- `StateManager::save_state_to_disk`: the exact disk operations it
issues.  The source performs one direct `fs::write` of the serialized
record to the sidecar path. -/
def saveStateToDisk (ser : VideoProcessingState → String) (stateDir : String)
    (state : VideoProcessingState) : List FsOp :=
  [FsOp.write (stateDir ++ "/" ++ sidecarFileName state.video_file_name) (ser state)]

/-- Lookup in an association list (`HashMap::get`). -/
def assocFind? [DecidableEq κ] (k : κ) : List (κ × β) → Option β
  | [] => none
  | (k2, v) :: l => if k2 = k then some v else assocFind? k l

/-- `StateManager::update_state`: replace the in-memory entry, then write
the sidecar.  Returns the new in-memory map together with the disk
operations performed. -/
def updateState (ser : VideoProcessingState → String) (stateDir : String)
    (cache : List (String × VideoProcessingState)) (state : VideoProcessingState) :
    List (String × VideoProcessingState) × List FsOp :=
  (assocInsert (generateStateKey state.video_parent state.video_file_name) state cache,
   saveStateToDisk ser stateDir state)

/-- The disk protocol asserted by claim C3: first write the content to a
temporary path, then rename the temporary file onto the final path. -/
def writesViaTempRename (ops : List FsOp) (finalPath : String) : Prop :=
  ∃ tmp content, tmp ≠ finalPath ∧
    ops = [FsOp.write tmp content, FsOp.renameFile tmp finalPath]

/-- C3: `save_state_to_disk` does not use write-to-temp-then-rename; at a
concrete record it issues a single direct `fs::write` to the sidecar path,
so its operation trace is not of the two-step atomic form.  (A crash or a
concurrent reader between the start and the end of that single write
observes a torn sidecar.) -/
theorem saveStateToDisk_not_temp_then_rename :
    ¬ writesViaTempRename
        (saveStateToDisk (fun _ => "serialized")  "videos/.bjj_analyzer_state"
          (createNewState (fun _ _ => 0) "videos" "demo.mp4" 5 100 6))
        ("videos/.bjj_analyzer_state" ++ "/" ++ sidecarFileName "demo.mp4") := by
  rintro ⟨tmp, content, hne, heq⟩
  simp [saveStateToDisk] at heq

/-- C3 (amended): `update_state` replaces the in-memory entry under the
identity key and rewrites the sidecar with exactly one direct write of the
fully serialized record to the sidecar path; no temporary file and no
rename are involved. -/
theorem updateState_direct_write (ser : VideoProcessingState → String)
    (stateDir : String) (cache : List (String × VideoProcessingState))
    (state : VideoProcessingState) :
    updateState ser stateDir cache state =
      (assocInsert (generateStateKey state.video_parent state.video_file_name) state cache,
       [FsOp.write (stateDir ++ "/" ++ sidecarFileName state.video_file_name) (ser state)]) :=
  rfl

/-- `StateManager::is_video_unchanged`: reads the file metadata (errors if
unavailable), then checks that the size is positive and the modification
time equals the recorded one. -/
def isVideoUnchanged (fileMeta : Option (Nat × Nat)) (state : VideoProcessingState) :
    Except String Bool :=
  match fileMeta with
  | none => .error "metadata unavailable"
  | some (modified, len) =>
    .ok (decide (0 < len) && decide (modified = state.video_modified))

/-- `StateManager::get_or_create_state`.  `fileMeta` is the video file
metadata `(modification time, size)` as read from disk, `none` when the
file is unreadable.  Returns the record together with the updated
in-memory map. -/
def getOrCreateState (hash : String → Nat → Nat)
    (cache : List (String × VideoProcessingState)) (parent fileName : String)
    (fileMeta : Option (Nat × Nat)) (now : Nat) :
    Except String (VideoProcessingState × List (String × VideoProcessingState)) :=
  let key := generateStateKey parent fileName
  match assocFind? key cache with
  | some cached =>
    match isVideoUnchanged fileMeta cached with
    | .error e => .error e
    | .ok true => .ok (cached, cache)
    | .ok false =>
      match fileMeta with
      | none => .error "metadata unavailable"
      | some (modified, len) =>
        let fresh := createNewState hash parent fileName modified len now
        .ok (fresh, assocInsert key fresh cache)
  | none =>
    match fileMeta with
    | none => .error "metadata unavailable"
    | some (modified, len) =>
      let fresh := createNewState hash parent fileName modified len now
      .ok (fresh, assocInsert key fresh cache)

/-- C6: with the video file present (metadata readable), the stored record
is returned iff one exists under the identity key, its recorded
modification time equals the current one and the size is non-zero; in
every other case a fresh record at `Pending` with empty `completed_stages`
and the current modification time is returned (and cached).  -/
theorem getOrCreateState_cached_iff (hash : String → Nat → Nat)
    (cache : List (String × VideoProcessingState)) (parent fileName : String)
    (modified len now : Nat) :
    (match assocFind? (generateStateKey parent fileName) cache with
     | some cached =>
       if cached.video_modified = modified ∧ 0 < len then
         getOrCreateState hash cache parent fileName (some (modified, len)) now =
           .ok (cached, cache)
       else
         getOrCreateState hash cache parent fileName (some (modified, len)) now =
           .ok (createNewState hash parent fileName modified len now,
                assocInsert (generateStateKey parent fileName)
                  (createNewState hash parent fileName modified len now) cache)
     | none =>
       getOrCreateState hash cache parent fileName (some (modified, len)) now =
         .ok (createNewState hash parent fileName modified len now,
              assocInsert (generateStateKey parent fileName)
                (createNewState hash parent fileName modified len now) cache)) ∧
    (createNewState hash parent fileName modified len now).current_stage =
      ProcessingStage.Pending ∧
    (createNewState hash parent fileName modified len now).completed_stages = [] ∧
    (createNewState hash parent fileName modified len now).video_modified = modified := by
  refine ⟨?_, rfl, rfl, rfl⟩
  cases hfind : assocFind? (generateStateKey parent fileName) cache with
  | none => simp [getOrCreateState, hfind]
  | some cached =>
    dsimp only
    by_cases hcond : cached.video_modified = modified ∧ 0 < len
    · rw [if_pos hcond]
      have hv : isVideoUnchanged (some (modified, len)) cached = .ok true := by
        simp [isVideoUnchanged, hcond.1, hcond.2]
      simp [getOrCreateState, hfind, hv]
    · rw [if_neg hcond]
      have hv : isVideoUnchanged (some (modified, len)) cached = .ok false := by
        simp only [isVideoUnchanged, Except.ok.injEq]
        rw [Bool.and_eq_false_iff]
        by_cases h1 : 0 < len
        · right
          simp only [decide_eq_false_iff_not]
          intro h2
          exact hcond ⟨h2.symm, h1⟩
        · left
          simpa using h1
      simp [getOrCreateState, hfind, hv]

/-! ## Artifact detector (`shared/bjj-core/src/video_file.rs`)

`detect_processing_stage` reads only the existence and the byte size of
four sibling files, so the on-disk situation is modelled as four optional
sizes.
-/

/-- The coarser `ProcessingStage` of `shared/bjj-core` (`artifacts.rs`). -/
inductive CoreStage where
  | Pending
  | AudioExtracted
  | Transcribed
  | LLMCorrected
  | SubtitlesGenerated
  | Completed
deriving DecidableEq, Repr

/-- The four artifacts next to a video: `<stem>_corrected.txt`,
`<stem>.txt`, `<stem>.srt`, `<stem>.wav`.  `some n` means the file exists
with size `n` bytes, `none` means it is absent. -/
structure ArtifactFiles where
  corrected_txt : Option Nat
  txt : Option Nat
  srt : Option Nat
  wav : Option Nat
deriving DecidableEq, Repr

/-- `Path::exists` on a modelled artifact. -/
def fileExistsB (o : Option Nat) : Bool :=
  o.isSome

/-- `VideoFile::is_file_meaningful`: the file exists and its length
exceeds 10 bytes. -/
def isFileMeaningful (o : Option Nat) : Bool :=
  match o with
  | none => false
  | some n => decide (10 < n)

/-- `VideoFile::detect_processing_stage`: the if-chain from the source,
with `has_corrected_transcript`, `has_transcript_artifact`,
`has_subtitles`, `has_audio_artifact` expanded to existence checks. -/
def detectProcessingStage (f : ArtifactFiles) : CoreStage :=
  if fileExistsB f.corrected_txt && fileExistsB f.srt && isFileMeaningful f.corrected_txt then
    .Completed
  else if fileExistsB f.corrected_txt && isFileMeaningful f.corrected_txt then
    .LLMCorrected
  else if fileExistsB f.txt && fileExistsB f.srt && isFileMeaningful f.txt then
    .Transcribed
  else if fileExistsB f.txt && isFileMeaningful f.txt then
    .Transcribed
  else if fileExistsB f.wav then
    .AudioExtracted
  else
    .Pending

/-- Claim C5 stage rule, written from the six spec rules: meaningfulness
alone guards rules 1-4 (meaningful already implies existence). -/
def claimedDetectStage (f : ArtifactFiles) : CoreStage :=
  if isFileMeaningful f.corrected_txt && fileExistsB f.srt then .Completed
  else if isFileMeaningful f.corrected_txt then .LLMCorrected
  else if isFileMeaningful f.txt && fileExistsB f.srt then .Transcribed
  else if isFileMeaningful f.txt then .Transcribed
  else if fileExistsB f.wav then .AudioExtracted
  else .Pending

/-- C5: for every on-disk artifact situation, the detector computes exactly
the first matching rule of the six-rule sequence of the claim, and a video
with only a zero-byte `.txt` is classified `Pending`. -/
theorem detectProcessingStage_eq_claimed :
    (∀ f : ArtifactFiles, detectProcessingStage f = claimedDetectStage f) ∧
    detectProcessingStage ⟨none, some 0, none, none⟩ = CoreStage.Pending := by
  refine ⟨?_, by decide⟩
  rintro ⟨c, t, s, w⟩
  cases c <;> cases t <;> cases s <;> cases w <;>
    simp [detectProcessingStage, claimedDetectStage, fileExistsB, isFileMeaningful]

/-! ## Series cache key (`src/chapters/cache.rs`)

`generate_cache_key` feeds a combined string through the std
`DefaultHasher`; the hasher is standard-library code and is therefore a
parameter `hash : String → Nat` producing the 64-bit hash value.  Rust
`join` and ASCII `to_lowercase` are modelled directly on the chunk
lists.
-/

/-- Rust `Vec::join(sep)`. -/
def joinSep (sep : String) : List String → String
  | [] => ""
  | [x] => x
  | x :: xs => x ++ sep ++ joinSep sep xs

/-- Rust `str::to_lowercase`, restricted to ASCII case mapping (the cache
keys are built from ASCII filename chunks). -/
def strToLower (s : String) : String :=
  String.mk (s.data.map Char.toLower)

/-- `chars().take(n).collect()`. -/
def strTake (n : Nat) (s : String) : String :=
  String.mk (s.data.take n)

/-- Rust `format!` specifier `{:08x}`: lowercase hex, zero-padded to a
minimum width of eight digits (a 64-bit hash can print up to sixteen). -/
def hexMinWidth (w : Nat) (n : Nat) : String :=
  let ds := Nat.toDigits 16 n
  String.mk (List.replicate (w - ds.length) '0' ++ ds)

/-- `ChapterCacheManager::generate_cache_key`: lowercased underscore-join
of all instructor chunks, then of the first three series chunks; the two
parts joined by an underscore; truncated to 30 characters with spaces
replaced by underscores; suffixed by an underscore and the hash formatted
with `{:08x}`. -/
def generateCacheKey (hash : String → Nat) (instructor series : List String) : String :=
  let instructor_part := strToLower (joinSep "_" instructor)
  let series_part := strToLower (joinSep "_" (series.take 3))
  let combined := instructor_part ++ "_" ++ series_part
  charReplace ' ' '_' (strTake 30 combined) ++ "_" ++ hexMinWidth 8 (hash combined)

/-- An exactly-eight-digit hex rendition of a hash (a 32-bit quantity),
formalizing the words of claim C7. -/
def hexExact8 (n : Nat) : String :=
  hexMinWidth 8 (n % 4294967296)

/-- The SeriesKey as claim C7 words it: lowercasing, underscore-joining
the FIRST instructor chunk and up to three series chunks, truncating to 30
characters, appending exactly an 8-hex-digit hash of the combined
string. -/
def claimedSeriesKey (hash : String → Nat) (instructor series : List String) : String :=
  let combined := joinSep "_" ((instructor.take 1 ++ series.take 3).map strToLower)
  strTake 30 combined ++ "_" ++ hexExact8 (hash combined)

/-- C7: the generated key joins ALL instructor chunks, not just the first:
at a two-chunk instructor the generated key differs from the claimed one
(under the same hash oracle, here constantly 0, so only the structure of
the prefix distinguishes the two). -/
theorem generateCacheKey_ne_claimed :
    generateCacheKey (fun _ => 0) ["Adam", "Wardzinski"]
        ["Closed", "Guard", "Reintroduced"] ≠
      claimedSeriesKey (fun _ => 0) ["Adam", "Wardzinski"]
        ["Closed", "Guard", "Reintroduced"] := by
  decide

/-- The SeriesKey as amended: lowercase every instructor chunk and every
one of the first three series chunks, underscore-join them all, truncate
to 30 characters replacing spaces by underscores, and append an underscore
and the 64-bit hash of the full (untruncated) combined string in lowercase
hex zero-padded to at least eight digits. -/
def amendedSeriesKey (hash : String → Nat) (instructor series : List String) : String :=
  let combined := joinSep "_" ((instructor ++ series.take 3).map strToLower)
  charReplace ' ' '_' (strTake 30 combined) ++ "_" ++ hexMinWidth 8 (hash combined)

theorem strToLower_append (a b : String) :
    strToLower (a ++ b) = strToLower a ++ strToLower b := by
  cases a with
  | mk da =>
    cases b with
    | mk db =>
      show String.mk ((da ++ db).map Char.toLower) = String.mk (da.map Char.toLower ++ db.map Char.toLower)
      rw [List.map_append]

theorem strToLower_joinSep (l : List String) :
    strToLower (joinSep "_" l) = joinSep "_" (l.map strToLower) := by
  induction l with
  | nil => rfl
  | cons x xs ih =>
    cases xs with
    | nil => rfl
    | cons y ys =>
      show strToLower (x ++ "_" ++ joinSep "_" (y :: ys)) = _
      rw [strToLower_append, strToLower_append, ih]
      rfl

theorem strAppend_assoc (a b c : String) : a ++ b ++ c = a ++ (b ++ c) := by
  cases a with
  | mk da =>
    cases b with
    | mk db =>
      cases c with
      | mk dc => exact congrArg String.mk (List.append_assoc da db dc)

theorem joinSep_append_ne (sep : String) (a : List String) (b : List String)
    (ha : a ≠ []) (hb : b ≠ []) :
    joinSep sep (a ++ b) = joinSep sep a ++ sep ++ joinSep sep b := by
  induction a with
  | nil => exact absurd rfl ha
  | cons x xs ih =>
    cases xs with
    | nil =>
      cases b with
      | nil => exact absurd rfl hb
      | cons y ys => rfl
    | cons z zs =>
      show x ++ sep ++ joinSep sep ((z :: zs) ++ b) = _
      rw [ih (by simp)]
      show _ = (x ++ sep ++ joinSep sep (z :: zs)) ++ sep ++ joinSep sep b
      simp only [strAppend_assoc]

/-- C7 (amended): for non-empty instructor and series chunk lists the
generated cache key has exactly the amended shape. -/
theorem generateCacheKey_eq_amended (hash : String → Nat)
    (instructor series : List String)
    (hi : instructor ≠ []) (hs : series ≠ []) :
    generateCacheKey hash instructor series = amendedSeriesKey hash instructor series := by
  have hs3 : series.take 3 ≠ [] := by
    cases series with
    | nil => exact absurd rfl hs
    | cons x xs => simp [List.take]
  have hmi : instructor.map strToLower ≠ [] := by
    cases instructor with
    | nil => exact absurd rfl hi
    | cons x xs => simp
  have hms : (series.take 3).map strToLower ≠ [] := by
    cases h3 : series.take 3 with
    | nil => exact absurd h3 hs3
    | cons x xs => simp
  have hcomb :
      joinSep "_" ((instructor ++ series.take 3).map strToLower)
        = strToLower (joinSep "_" instructor) ++ "_" ++
            strToLower (joinSep "_" (series.take 3)) := by
    rw [List.map_append, joinSep_append_ne "_" _ _ hmi hms,
      ← strToLower_joinSep, ← strToLower_joinSep]
  simp only [generateCacheKey, amendedSeriesKey]
  rw [hcomb]

/-- Witness for the amended C7 theorem at a concrete instructor/series
pair (hash oracle constantly 0). -/
theorem generateCacheKey_eq_amended_witness :
    (["Craig", "Jones"] : List String) ≠ [] ∧ (["Just", "Stand", "Up"] : List String) ≠ [] ∧
    generateCacheKey (fun _ => 0) ["Craig", "Jones"] ["Just", "Stand", "Up"] =
      amendedSeriesKey (fun _ => 0) ["Craig", "Jones"] ["Just", "Stand", "Up"] :=
  ⟨by decide, by decide,
    generateCacheKey_eq_amended (fun _ => 0) _ _ (by decide) (by decide)⟩

/-! ## Per-volume chapter slicing (`src/chapters/scraper.rs`)

`calculate_video_boundaries`, `extract_chapters_for_boundary`,
`filter_chapters_by_duration` and `map_chapters_to_video`.  The f64
timestamps and durations are modelled as exact rationals; the arithmetic
the code performs on them (division, ceiling, multiplication, min,
comparison, subtraction) is exact on the rationals involved in the
claims.
-/

/-- `ChapterInfo` from `src/chapters/mod.rs`. -/
structure ChapterInfo where
  title : String
  timestamp : ℚ
  description : Option String
deriving DecidableEq, Repr

/-- `VideoBoundary` from `src/chapters/scraper.rs`: volume number with its
series-cumulative time range. -/
structure VideoBoundary where
  volume : Nat
  start_time : ℚ
  end_time : ℚ
deriving DecidableEq, Repr

/-- The comparator `a.timestamp.partial_cmp(&b.timestamp)` used by every
chapter sort (total on the rationals; the `unwrap_or(Equal)` NaN case
cannot arise in the exact model). -/
def chapterLe (a b : ChapterInfo) : Bool :=
  decide (a.timestamp ≤ b.timestamp)

/-- `i as f64` for a loop counter. -/
def natToRat (n : Nat) : ℚ :=
  mkRat (Int.ofNat n) 1

/-- `f64::min` on the exact model. -/
def ratMin (a b : ℚ) : ℚ :=
  if a ≤ b then a else b

/-- `ChapterScraper::calculate_video_boundaries`. -/
def calculateVideoBoundaries (chapters : List ChapterInfo) (single_video_duration : ℚ) :
    List VideoBoundary :=
  if chapters.isEmpty || decide (single_video_duration ≤ 0) then []
  else
    let sorted := sortLe chapterLe chapters
    let max_timestamp := ((sorted.getLast?).map (·.timestamp)).getD 0
    if max_timestamp ≤ single_video_duration then
      [⟨1, 0, single_video_duration⟩]
    else
      let count := (Rat.ceil (max_timestamp / single_video_duration)).toNat
      (List.range count).map fun i =>
        ⟨i + 1, natToRat i * single_video_duration,
          ratMin ((natToRat i + 1) * single_video_duration) max_timestamp⟩

/-- `ChapterScraper::extract_chapters_for_boundary`: keep the chapters
whose timestamp lies in `[start_time, end_time)`, re-base them to
`t - start_time`, sort by the adjusted timestamp. -/
def extractChaptersForBoundary (chapters : List ChapterInfo) (boundary : VideoBoundary) :
    List ChapterInfo :=
  sortLe chapterLe
    ((chapters.filter fun c =>
        decide (boundary.start_time ≤ c.timestamp) && decide (c.timestamp < boundary.end_time)).map
      fun c => { c with timestamp := c.timestamp - boundary.start_time })

/-- `ChapterScraper::filter_chapters_by_duration` (fallback path). -/
def filterChaptersByDuration (chapters : List ChapterInfo) (max_duration : ℚ) :
    List ChapterInfo :=
  chapters.filter fun c => decide (c.timestamp ≤ max_duration)

/-- `ChapterScraper::map_chapters_to_video`.  A `volume_number` of zero
underflows the `u32` index in the source and misses every boundary, which
lands in the duration-filter fallback; that is modelled by the explicit
zero test. -/
def mapChaptersToVideo (chapters : List ChapterInfo) (video_duration : ℚ)
    (volume_number : Option Nat) : List ChapterInfo :=
  if chapters.isEmpty then []
  else
    let volume := volume_number.getD 1
    let boundaries := calculateVideoBoundaries chapters video_duration
    if boundaries.isEmpty then filterChaptersByDuration chapters video_duration
    else if volume = 0 then filterChaptersByDuration chapters video_duration
    else
      match boundaries.get? (volume - 1) with
      | some boundary => extractChaptersForBoundary chapters boundary
      | none => filterChaptersByDuration chapters video_duration

/-- The series chapter list of the claimed scenario: timestamps 0, 300,
700, 1300 and 2100 seconds. -/
def scenarioChapters : List ChapterInfo :=
  [⟨"Intro", 0, none⟩, ⟨"Grips", 300, none⟩, ⟨"Sweeps", 700, none⟩,
   ⟨"Passing", 1300, none⟩, ⟨"Submissions", 2100, none⟩]

set_option maxRecDepth 8000 in
/-- C4: the claimed example contradicts the half-open-interval formula the
code (and the claim itself) uses.  With duration 1200 the boundaries are
`[0,1200)` and `[1200,2100)`: volume 1 receives the chapters at 0, 300 AND
700 (not just 0 and 300), and volume 2 receives only the chapter at 1300
re-based to 100 (2100 is excluded because the interval is half-open). -/
theorem mapChaptersToVideo_scenario_ne_claimed :
    mapChaptersToVideo scenarioChapters 1200 (some 1) ≠
      [⟨"Intro", 0, none⟩, ⟨"Grips", 300, none⟩] ∧
    mapChaptersToVideo scenarioChapters 1200 (some 2) ≠
      [⟨"Passing", 100, none⟩, ⟨"Submissions", 900, none⟩] := by
  constructor <;> with_unfolding_all decide

set_option maxRecDepth 8000 in
/-- C4 (amended): on the claimed scenario (chapters at 0, 300, 700, 1300,
2100; single-video duration 1200) the boundaries are exactly
`[i*1200, min((i+1)*1200, 2100)]` for i in 0..2, volume 1 receives exactly
the chapters with timestamp in `[0, 1200)` — those at 0, 300 and 700,
re-based unchanged — and volume 2 receives exactly the chapters with
timestamp in `[1200, 2100)` — the single chapter at 1300, re-based to
100. -/
theorem mapChaptersToVideo_scenario :
    calculateVideoBoundaries scenarioChapters 1200 =
      [⟨1, 0, 1200⟩, ⟨2, 1200, 2100⟩] ∧
    mapChaptersToVideo scenarioChapters 1200 (some 1) =
      [⟨"Intro", 0, none⟩, ⟨"Grips", 300, none⟩, ⟨"Sweeps", 700, none⟩] ∧
    mapChaptersToVideo scenarioChapters 1200 (some 2) =
      [⟨"Passing", 100, none⟩] := by
  refine ⟨?_, ?_, ?_⟩ <;> with_unfolding_all decide

/-! ## SRT generation (`src/transcription/srt.rs` and
`src/transcription/whisper.rs`)

The produced `.srt` document is modelled by its entry list (the textual
rendering in `generate` prints the entries in order and adds no entry).
`Duration` values are non-negative rationals in seconds.  `validate`
returns tagged issues instead of formatted strings; crucially, Rust
`Duration` subtraction panics on underflow, so `validate` is embedded in
`Except`: an entry with `end < start` makes the whole production path
panic instead of producing a document.
-/

/-- `SRTEntry`; the reserved word `end` becomes `endTime`. -/
structure SRTEntry where
  index : Nat
  start : ℚ
  endTime : ℚ
  text : String
deriving DecidableEq, Repr

/-- `SRTEntry::new` trims the text. -/
def SRTEntry.mkNew (index : Nat) (start endTime : ℚ) (text : String) : SRTEntry :=
  ⟨index, start, endTime, text.trim⟩

/-- `TranscriptionSegment` (the fields `generate_srt_file` reads). -/
structure TranscriptionSegment where
  id : Nat
  start : ℚ
  endSeg : ℚ
  text : String
deriving DecidableEq, Repr

/-- The comparator of `sort_entries`: `a.start.cmp(&b.start)`. -/
def srtLe (a b : SRTEntry) : Bool :=
  decide (a.start ≤ b.start)

/-- The re-indexing loop of `sort_entries`: positions are renumbered from
`n` upward. -/
def reindexFrom (n : Nat) : List SRTEntry → List SRTEntry
  | [] => []
  | e :: l => { e with index := n } :: reindexFrom (n + 1) l

/-- `SRTGenerator::sort_entries`: stable sort by start time, then
re-index from 1. -/
def sortEntries (entries : List SRTEntry) : List SRTEntry :=
  reindexFrom 1 (sortLe srtLe entries)

/-- The issues `SRTGenerator::validate` can report (the formatted message
strings are abstracted to tags carrying the 1-based entry numbers). -/
inductive SRTIssue where
  | endNotAfterStart (entry : Nat)
  | emptyText (entry : Nat)
  | veryShortDuration (entry : Nat)
  | veryLongDuration (entry : Nat)
  | overlap (first second : Nat)
deriving DecidableEq, Repr

/-- The per-entry checks of `validate` for the entry at 0-based position
`i`.  After the first two checks the source computes
`entry.end - entry.start` on `Duration`, which panics when
`end < start`; the panic is the `error` branch. -/
def entryIssues (i : Nat) (e : SRTEntry) : Except String (List SRTIssue) :=
  let l1 := if e.endTime ≤ e.start then [SRTIssue.endNotAfterStart (i + 1)] else []
  let l2 := if e.text.trim = "" then [SRTIssue.emptyText (i + 1)] else []
  if e.endTime < e.start then .error "overflow when subtracting durations"
  else
    let d := e.endTime - e.start
    let l3 := if d < (1 : ℚ) / 10 then [SRTIssue.veryShortDuration (i + 1)] else []
    let l4 := if 30 < d then [SRTIssue.veryLongDuration (i + 1)] else []
    .ok (l1 ++ l2 ++ l3 ++ l4)

/-- The per-entry loop of `validate`. -/
def entriesIssues : Nat → List SRTEntry → Except String (List SRTIssue)
  | _, [] => .ok []
  | i, e :: l =>
    match entryIssues i e with
    | .error s => .error s
    | .ok a =>
      match entriesIssues (i + 1) l with
      | .error s => .error s
      | .ok b => .ok (a ++ b)

/-- The adjacent-overlap loop of `validate`:
`entries[i].end > entries[i+1].start` flags entries `i+1` and `i+2`
(1-based). -/
def overlapIssues : Nat → List SRTEntry → List SRTIssue
  | _, [] => []
  | _, [_] => []
  | i, a :: b :: l =>
    (if b.start < a.endTime then [SRTIssue.overlap (i + 1) (i + 2)] else []) ++
      overlapIssues (i + 1) (b :: l)

/-- `SRTGenerator::validate`. -/
def validateEntries (entries : List SRTEntry) : Except String (List SRTIssue) :=
  match entriesIssues 0 entries with
  | .error s => .error s
  | .ok a => .ok (a ++ overlapIssues 0 entries)

/-- The entry list `generate_srt_file` builds from the segments before
sorting: whitespace-only segments are dropped, each remaining segment
becomes an entry numbered `id + 1`. -/
def builtEntries (segments : List TranscriptionSegment) : List SRTEntry :=
  (segments.filter fun s => !(s.text.trim == "")).map fun s =>
    SRTEntry.mkNew (s.id + 1) s.start s.endSeg s.text

/-- `WhisperTranscriber::generate_srt_file`: drop whitespace-only
segments, build entries, sort and re-index, validate (issues are only
logged — unless the validator panics, which aborts the task), save the
sorted entries. -/
def generateSrtFile (segments : List TranscriptionSegment) : Except String (List SRTEntry) :=
  let sorted := sortEntries (builtEntries segments)
  match validateEntries sorted with
  | .error e => .error e
  | .ok _ => .ok sorted

theorem generateSrtFile_ok (segments : List TranscriptionSegment)
    (doc : List SRTEntry) (h : generateSrtFile segments = .ok doc) :
    doc = sortEntries (builtEntries segments) ∧
      ∃ issues, validateEntries doc = .ok issues := by
  rw [generateSrtFile] at h
  cases hv : validateEntries (sortEntries (builtEntries segments)) with
  | error s =>
    rw [hv] at h
    exact absurd h (by simp)
  | ok a =>
    rw [hv] at h
    simp only [] at h
    have hd : doc = sortEntries (builtEntries segments) := by
      cases h
      rfl
    exact ⟨hd, a, hd ▸ hv⟩

/-- C8: a produced document can contain an entry with `end = start`: the
validator flags it but the file is saved anyway, so "every entry satisfies
end > start" fails on this document (a zero-length segment). -/
theorem generateSrtFile_not_end_gt_start :
    generateSrtFile [⟨0, 5, 5, "Same"⟩] = .ok [⟨1, 5, 5, "Same"⟩] ∧
    ¬ (∀ e ∈ [(⟨1, 5, 5, "Same"⟩ : SRTEntry)], e.start < e.endTime) := by
  constructor
  · with_unfolding_all rfl
  · intro h
    have := h ⟨1, 5, 5, "Same"⟩ (List.mem_singleton.mpr rfl)
    exact absurd this (by with_unfolding_all decide)

theorem reindexFrom_length (n : Nat) :
    ∀ l : List SRTEntry, (reindexFrom n l).length = l.length
  | [] => rfl
  | e :: l => by simp [reindexFrom, reindexFrom_length (n + 1) l]

theorem reindexFrom_get (n : Nat) :
    ∀ (l : List SRTEntry) (i : Nat) (hi : i < (reindexFrom n l).length),
      ((reindexFrom n l).get ⟨i, hi⟩).index = n + i
  | [], i, hi => by simp [reindexFrom] at hi
  | e :: l, 0, hi => by simp [reindexFrom]
  | e :: l, i + 1, hi => by
    have := reindexFrom_get (n + 1) l i (by
      simpa [reindexFrom] using hi)
    simpa [reindexFrom, Nat.add_assoc, Nat.add_comm 1 i] using this

theorem mem_reindexFrom (n : Nat) (x : SRTEntry) :
    ∀ l : List SRTEntry, x ∈ reindexFrom n l →
      ∃ y ∈ l, x.start = y.start ∧ x.endTime = y.endTime
  | [], h => by simp [reindexFrom] at h
  | e :: l, h => by
    rw [reindexFrom] at h
    rcases List.mem_cons.mp h with rfl | h2
    · exact ⟨e, List.mem_cons_self e l, rfl, rfl⟩
    · rcases mem_reindexFrom (n + 1) x l h2 with ⟨y, hy, h3, h4⟩
      exact ⟨y, List.mem_cons_of_mem e hy, h3, h4⟩

theorem reindexFrom_pairwise_start (n : Nat) (l : List SRTEntry)
    (hl : l.Pairwise (fun a b => a.start ≤ b.start)) :
    (reindexFrom n l).Pairwise (fun a b => a.start ≤ b.start) := by
  induction l generalizing n with
  | nil => simp [reindexFrom]
  | cons e t ih =>
    rcases List.pairwise_cons.mp hl with ⟨he, ht⟩
    rw [reindexFrom]
    refine List.pairwise_cons.mpr ⟨?_, ih (n + 1) ht⟩
    intro x hx
    rcases mem_reindexFrom (n + 1) x t hx with ⟨y, hy, h3, _⟩
    show ({ e with index := n } : SRTEntry).start ≤ x.start
    rw [h3]
    exact he y hy

theorem entriesIssues_ok_le (i : Nat) :
    ∀ (l : List SRTEntry) (issues : List SRTIssue),
      entriesIssues i l = .ok issues → ∀ e ∈ l, e.start ≤ e.endTime
  | [], _, _, e, he => by simp at he
  | e0 :: l, issues, h, e, he => by
    rw [entriesIssues] at h
    cases h1 : entryIssues i e0 with
    | error s => rw [h1] at h; exact absurd h (by simp)
    | ok a =>
      rw [h1] at h
      cases h2 : entriesIssues (i + 1) l with
      | error s => rw [h2] at h; exact absurd h (by simp)
      | ok b =>
        rcases List.mem_cons.mp he with rfl | he2
        · by_contra hlt
          rw [entryIssues] at h1
          rw [if_pos (lt_of_not_ge hlt)] at h1
          exact absurd h1 (by simp)
        · exact entriesIssues_ok_le (i + 1) l b h2 e he2

theorem mem_overlapIssues (n : Nat) :
    ∀ (l : List SRTEntry) (i : Nat) (hi1 : i + 1 < l.length),
      (l.get ⟨i + 1, hi1⟩).start < (l.get ⟨i, Nat.lt_of_succ_lt hi1⟩).endTime →
      SRTIssue.overlap (n + i + 1) (n + i + 2) ∈ overlapIssues n l
  | [], i, hi1, _ => by simp at hi1
  | [_], i, hi1, _ => by simp at hi1
  | a :: b :: l, 0, hi1, hov => by
    rw [overlapIssues]
    apply List.mem_append_left
    simp only [List.get] at hov
    rw [if_pos hov]
    simp
  | a :: b :: l, i + 1, hi1, hov => by
    rw [overlapIssues]
    apply List.mem_append_right
    have hi2 : i + 1 < (b :: l).length := by
      simpa using Nat.lt_of_succ_lt_succ hi1
    have := mem_overlapIssues (n + 1) (b :: l) i hi2 (by
      simpa using hov)
    simpa [Nat.add_assoc, Nat.add_comm, Nat.add_left_comm] using this

/-- C8 (amended): every successfully produced SRT document is indexed
contiguously from 1 to N and its start times are non-decreasing in
document order; every entry satisfies `end ≥ start` (an `end < start`
entry panics the duration arithmetic inside the validator, so no document
is produced at all), but `end = start` entries do occur in produced
documents and are merely flagged; likewise each pair of overlapping
adjacent entries is flagged by the validator, which never rejects the
document. -/
theorem generateSrtFile_spec (segments : List TranscriptionSegment)
    (doc : List SRTEntry) (h : generateSrtFile segments = .ok doc) :
    (∀ (i : Nat) (hi : i < doc.length), (doc.get ⟨i, hi⟩).index = i + 1) ∧
    doc.Pairwise (fun a b => a.start ≤ b.start) ∧
    (∀ e ∈ doc, e.start ≤ e.endTime) ∧
    (∃ issues, validateEntries doc = .ok issues ∧
      ∀ (i : Nat) (hi1 : i + 1 < doc.length),
        (doc.get ⟨i + 1, hi1⟩).start < (doc.get ⟨i, Nat.lt_of_succ_lt hi1⟩).endTime →
          SRTIssue.overlap (i + 1) (i + 2) ∈ issues) := by
  rcases generateSrtFile_ok segments doc h with ⟨hdoc, hvalid⟩
  subst hdoc
  refine ⟨?_, ?_, ?_, ?_⟩
  · intro i hi
    have := reindexFrom_get 1 (sortLe srtLe (builtEntries segments)) i
      (by simpa [sortEntries] using hi)
    simpa [sortEntries, Nat.add_comm] using this
  · apply reindexFrom_pairwise_start
    have := sortLe_pairwise srtLe
      (by intro a b; simp only [srtLe, decide_eq_true_eq]; exact le_total a.start b.start)
      (by intro a b c h1 h2; simp only [srtLe, decide_eq_true_eq] at h1 h2 ⊢; exact le_trans h1 h2)
      (builtEntries segments)
    exact this.imp (by intro a b hab; simpa [srtLe] using hab)
  · rcases hvalid with ⟨issues, hv⟩
    rw [validateEntries] at hv
    cases hE : entriesIssues 0 (sortEntries (builtEntries segments)) with
    | error s => rw [hE] at hv; exact absurd hv (by simp)
    | ok a => exact entriesIssues_ok_le 0 _ a hE
  · rcases hvalid with ⟨issues, hv⟩
    refine ⟨issues, hv, ?_⟩
    intro i hi1 hov
    rw [validateEntries] at hv
    cases hE : entriesIssues 0 (sortEntries (builtEntries segments)) with
    | error s => rw [hE] at hv; exact absurd hv (by simp)
    | ok a =>
      rw [hE] at hv
      have hiss : issues = a ++ overlapIssues 0 (sortEntries (builtEntries segments)) := by
        simpa using hv.symm
      rw [hiss]
      apply List.mem_append_right
      have := mem_overlapIssues 0 (sortEntries (builtEntries segments)) i hi1 hov
      simpa using this

/-- Witness for the amended C8 theorem: two well-formed segments produce
the sorted re-indexed document. -/
theorem generateSrtFile_spec_witness :
    generateSrtFile [⟨0, 5, 10, "Second part"⟩, ⟨1, 0, 5, "First part"⟩] =
      .ok [⟨1, 0, 5, "First part"⟩, ⟨2, 5, 10, "Second part"⟩] ∧
    (∀ e ∈ [(⟨1, 0, 5, "First part"⟩ : SRTEntry), ⟨2, 5, 10, "Second part"⟩],
      e.start ≤ e.endTime) := by
  have h : generateSrtFile [⟨0, 5, 10, "Second part"⟩, ⟨1, 0, 5, "First part"⟩] =
      .ok [⟨1, 0, 5, "First part"⟩, ⟨2, 5, 10, "Second part"⟩] := by
    with_unfolding_all rfl
  exact ⟨h, (generateSrtFile_spec _ _ h).2.2.1⟩

/-! ## LLM correction replacements (`src/llm/correction.rs`)

`apply_text_replacements` sorts the replacement pairs by descending byte
length of `original` (stable) and applies Rust `str::replace` — leftmost,
non-overlapping, all occurrences — one pair after another.  `str::replace`
is embedded structurally on the character list (`replGo` skips the tail of
a matched pattern with a counter instead of a non-structural drop).
-/

/-- `TextReplacement` from `src/llm/correction.rs`. -/
structure TextReplacement where
  original : String
  replacement : String
deriving DecidableEq, Repr

/-- Scanner for `str::replace` with a non-empty pattern: at `skip = 0`
test the pattern at the current position; on a match emit the replacement
and skip the remaining `pat.length - 1` matched characters. -/
def replGo (pat rep : List Char) (skip : Nat) : List Char → List Char
  | [] => []
  | c :: rest =>
    match skip with
    | n + 1 => replGo pat rep n rest
    | 0 =>
      if pat.isPrefixOf (c :: rest) then rep ++ replGo pat rep (pat.length - 1) rest
      else c :: replGo pat rep 0 rest

/-- Rust `str::replace` on character lists.  An empty pattern matches at
every position boundary, interleaving the replacement. -/
def replList (pat rep s : List Char) : List Char :=
  match pat with
  | [] => rep ++ (s.map fun c => c :: rep).flatten
  | _ :: _ => replGo pat rep 0 s

/-- Rust `str::replace`. -/
def strReplace (s pat rep : String) : String :=
  ⟨replList pat.data rep.data s.data⟩

/-- `apply_text_replacements`: stable sort by descending `original` byte
length, then replace pair after pair. -/
def applyTextReplacements (text : String) (replacements : List TextReplacement) : String :=
  let sorted := sortLe
    (fun a b => decide (b.original.utf8ByteSize ≤ a.original.utf8ByteSize)) replacements
  sorted.foldl (fun acc r => strReplace acc r.original r.replacement) text

/-- Occurrence test: does `pat` occur contiguously inside `s`? -/
def occursIn (pat : List Char) : List Char → Bool
  | [] => pat.isEmpty
  | c :: rest => pat.isPrefixOf (c :: rest) || occursIn pat rest

/-- The stability condition of claim C9, read as a property of the
replacement list alone: no replacement string contains any original
string. -/
def stableReplacementsB (rs : List TextReplacement) : Bool :=
  rs.all fun r1 => rs.all fun r2 => !(occursIn r2.original.data r1.replacement.data)

/-- C9: idempotence fails for a stable list.  The list `[aa -> a]` is
stable (the replacement "a" does not contain the original "aa"), yet on
"aaa" the first pass yields "aa" — the shortened pieces recombine into a
fresh occurrence of the original across a replacement boundary — and the
second pass shortens it again to "a". -/
theorem applyTextReplacements_not_idempotent :
    stableReplacementsB [⟨"aa", "a"⟩] = true ∧
    applyTextReplacements "aaa" [⟨"aa", "a"⟩] = "aa" ∧
    applyTextReplacements (applyTextReplacements "aaa" [⟨"aa", "a"⟩]) [⟨"aa", "a"⟩] ≠
      applyTextReplacements "aaa" [⟨"aa", "a"⟩] := by
  refine ⟨by decide, by decide, by decide⟩

theorem replGo_no_occur (pat rep : List Char) (hp : pat ≠ []) :
    ∀ s : List Char, occursIn pat s = false → replGo pat rep 0 s = s
  | [], _ => by
    cases pat with
    | nil => exact absurd rfl hp
    | cons p ps => rfl
  | c :: rest, h => by
    rw [occursIn, Bool.or_eq_false_iff] at h
    cases pat with
    | nil => exact absurd rfl hp
    | cons p ps =>
      rw [replGo]
      rw [if_neg (by simp [h.1])]
      rw [replGo_no_occur (p :: ps) rep hp rest h.2]

theorem replList_no_occur (pat rep s : List Char) (h : occursIn pat s = false) :
    replList pat rep s = s := by
  cases pat with
  | nil =>
    exfalso
    cases s <;> simp [occursIn, List.isPrefixOf] at h
  | cons p ps => exact replGo_no_occur (p :: ps) rep (by simp) s h

theorem foldl_replace_no_occur (t : String) :
    ∀ rs : List TextReplacement,
      (∀ r ∈ rs, occursIn r.original.data t.data = false) →
      rs.foldl (fun acc r => strReplace acc r.original r.replacement) t = t
  | [], _ => rfl
  | r :: rs, h => by
    have h1 : strReplace t r.original r.replacement = t := by
      cases t with
      | mk dt =>
        exact congrArg String.mk
          (replList_no_occur r.original.data r.replacement.data dt
            (h r (List.mem_cons_self r rs)))
    show List.foldl _ (strReplace t r.original r.replacement) rs = t
    rw [h1]
    exact foldl_replace_no_occur t rs fun x hx => h x (List.mem_cons_of_mem r hx)

theorem applyTextReplacements_no_occur (t : String) (rs : List TextReplacement)
    (h : ∀ r ∈ rs, occursIn r.original.data t.data = false) :
    applyTextReplacements t rs = t := by
  unfold applyTextReplacements
  apply foldl_replace_no_occur
  intro r hr
  exact h r ((mem_sortLe _ rs r).mp hr)

/-- C9 (amended): a second application changes nothing exactly when the
once-corrected text contains no occurrence of any original string.  The
purely syntactic reading of "stable" (no replacement contains an
original) is not enough, because shortening replacements can recombine
characters across boundaries into new occurrences; the semantic
no-residual-occurrence condition is. -/
theorem applyTextReplacements_idem (text : String) (rs : List TextReplacement)
    (h : ∀ r ∈ rs, occursIn r.original.data (applyTextReplacements text rs).data = false) :
    applyTextReplacements (applyTextReplacements text rs) rs =
      applyTextReplacements text rs :=
  applyTextReplacements_no_occur (applyTextReplacements text rs) rs h

/-- Witness for the amended C9 theorem: the canonical correction pair
leaves no residual occurrence, so the second pass is the identity. -/
theorem applyTextReplacements_idem_witness :
    (∀ r ∈ [(⟨"coast guard", "closed guard"⟩ : TextReplacement)],
      occursIn r.original.data
        (applyTextReplacements "the coast guard position" [⟨"coast guard", "closed guard"⟩]).data
          = false) ∧
    applyTextReplacements
        (applyTextReplacements "the coast guard position" [⟨"coast guard", "closed guard"⟩])
        [⟨"coast guard", "closed guard"⟩] =
      applyTextReplacements "the coast guard position" [⟨"coast guard", "closed guard"⟩] :=
  ⟨by decide, applyTextReplacements_idem _ _ (by decide)⟩

/-! ## Regex filename classifier (`src/chapters/scraper.rs`,
`parse_video_filename_regex`)

The `regex` crate is an external collaborator: each compiled pattern is an
oracle `caps i name` returning the capture list of pattern `i` on `name`
(`none` when the pattern does not match or fails to compile), and
`singleCaps` is the oracle for the single-word fallback pattern
`(.+?)(digits)`.  Everything else — extension trimming, CamelCase
splitting, `u32` parsing, capture plumbing, and the fallback slicing
(where Rust would panic on an out-of-bounds slice, modelled as `error`) —
is embedded from the source.
-/

/-- Fuelled worker for `str::trim_end_matches`: strips every trailing
occurrence of the pattern (each strip removes at least one character, so
`s.length` steps suffice). -/
def trimEndAllGo (pat : List Char) : Nat → List Char → List Char
  | 0, s => s
  | n + 1, s =>
    if pat ≠ [] ∧ pat.isSuffixOf s then trimEndAllGo pat n (s.take (s.length - pat.length))
    else s

/-- Rust `str::trim_end_matches`. -/
def trimEndAll (pat s : List Char) : List Char :=
  trimEndAllGo pat s.length s

/-- The extension-trimming chain at the top of
`parse_video_filename_regex`. -/
def trimVideoExtensions (filename : String) : String :=
  String.mk (trimEndAll ".mov".data (trimEndAll ".avi".data
    (trimEndAll ".mkv".data (trimEndAll ".mp4".data filename.data))))

/-- The regex replace `([a-z])([A-Z]) -> "$1 $2"`: a space is inserted
between every lowercase-uppercase pair (the matches of that pattern cannot
overlap, so the pairwise scan coincides with `replace_all`). -/
def camelSpace : List Char → List Char
  | [] => []
  | [c] => [c]
  | a :: b :: rest =>
    if a.isLower && b.isUpper then a :: ' ' :: camelSpace (b :: rest)
    else a :: camelSpace (b :: rest)

/-- Whitespace splitter (`split_whitespace`): accumulates the current
word reversed, drops empty fragments. -/
def splitWsGo : List Char → List Char → List (List Char)
  | cur, [] => if cur.isEmpty then [] else [cur.reverse]
  | cur, c :: rest =>
    if c.isWhitespace then
      (if cur.isEmpty then [] else [cur.reverse]) ++ splitWsGo [] rest
    else splitWsGo (c :: cur) rest

/-- `ChapterScraper::split_camel_case`. -/
def splitCamelCase (s : String) : List String :=
  (splitWsGo [] (camelSpace s.data)).map String.mk

/-- Rust `str::parse::<u32>().ok()` on digit strings: rejects the empty
string, non-digits and values above `u32::MAX`.  (Rust also accepts a
leading plus sign, which the digit-only capture groups never produce.) -/
def parseU32 (s : String) : Option Nat :=
  match s.toNat? with
  | none => none
  | some n => if n < 4294967296 then some n else none

/-- `SearchTerms` from `src/chapters/mod.rs`. -/
structure SearchTerms where
  instructor : List String := []
  series : List String := []
  volume : Option Nat := none
  keywords : List String := []
deriving DecidableEq, Repr

/-- `captures.get(i).map(|m| m.as_str()).unwrap_or("")`. -/
def capGet (l : List (Option String)) (i : Nat) : String :=
  ((l.get? i).join).getD ""

/-- `captures.get(i).and_then(|m| m.as_str().parse::<u32>().ok())`. -/
def capVol (l : List (Option String)) (i : Nat) : Option Nat :=
  ((l.get? i).join).bind parseU32

/-- The body of the `match i` arms inside the pattern loop: for a capture
list of the expected length, build the `SearchTerms` of pattern `i` (and
return through `Ok`); for any other length fall through to the next
pattern. -/
def patternResult (i : Nat) (l : List (Option String)) : Option SearchTerms :=
  match i with
  | 0 =>
    if l.length = 4 then
      some { series := splitCamelCase (capGet l 1), instructor := splitCamelCase (capGet l 2),
             volume := capVol l 3 }
    else none
  | 1 =>
    if l.length = 4 then
      some { series := splitCamelCase (capGet l 1), instructor := splitCamelCase (capGet l 2),
             volume := capVol l 3 }
    else none
  | 2 =>
    if l.length = 3 then
      some { series := splitCamelCase (capGet l 1), instructor := splitCamelCase (capGet l 2) }
    else none
  | 3 =>
    if l.length = 3 then
      some { series := splitCamelCase (capGet l 1), instructor := splitCamelCase (capGet l 2) }
    else none
  | 4 =>
    if l.length = 4 then
      some { instructor := splitCamelCase (capGet l 1),
             series := if capGet l 2 = "" then ["Unknown"] else splitCamelCase (capGet l 2),
             volume := capVol l 3 }
    else none
  | 5 =>
    if l.length = 4 then
      some { instructor := splitCamelCase (capGet l 1), series := splitCamelCase (capGet l 2),
             volume := capVol l 3 }
    else none
  | 6 =>
    if l.length = 4 then
      some { instructor := splitCamelCase (capGet l 1), series := splitCamelCase (capGet l 2),
             volume := capVol l 3 }
    else none
  | 7 =>
    if l.length = 3 then
      some { instructor := splitCamelCase (capGet l 1), series := splitCamelCase (capGet l 2) }
    else none
  | _ => none

/-- The first-match-wins pattern loop (a pattern that matches but yields
an unexpected capture count falls through, exactly as the source
`continue`s). -/
def tryPatternsList (caps : Nat → String → Option (List (Option String))) (name : String) :
    List Nat → Option SearchTerms
  | [] => none
  | i :: rest =>
    match caps i name with
    | some l =>
      match patternResult i l with
      | some st => some st
      | none => tryPatternsList caps name rest
    | none => tryPatternsList caps name rest

/-- Rust slice indexing `l[i..j]`: panics (here: errors) unless
`i ≤ j ≤ l.len()`. -/
def sliceRange (l : List String) (i j : Nat) : Except String (List String) :=
  if i ≤ j ∧ j ≤ l.length then .ok ((l.drop i).take (j - i))
  else .error "slice index out of bounds"

/-- The no-pattern-matched fallback of `parse_video_filename_regex`:
CamelCase words, first two words as instructor, optional trailing volume
number, single-word and empty sub-cases. -/
def fallbackTerms (singleCaps : String → Option (List (Option String))) (name : String) :
    Except String SearchTerms :=
  let words := splitCamelCase name
  if 2 ≤ words.length then
    match sliceRange words 0 2 with
    | .error e => .error e
    | .ok instructor =>
      match words.getLast? with
      | some last =>
        match parseU32 last with
        | some volume =>
          if 3 < words.length then
            match sliceRange words 2 (words.length - 1) with
            | .error e => .error e
            | .ok series => .ok { instructor, series, volume := some volume }
          else .ok { instructor, series := ["Unknown"], volume := some volume }
        | none =>
          match sliceRange words 2 words.length with
          | .error e => .error e
          | .ok series => .ok { instructor, series }
      | none => .ok { instructor, series := ["Unknown"] }
  else if words.length = 1 then
    match singleCaps name with
    | some l =>
      .ok { instructor := [((l.get? 1).join).getD name], series := ["Unknown"],
            volume := capVol l 2 }
    | none => .ok { instructor := words, series := ["Unknown"] }
  else
    .ok { instructor := ["Unknown"], series := ["Unknown"] }

/-- `ChapterScraper::parse_video_filename_regex`: trim extensions, try the
eight patterns in order, otherwise run the fallback. -/
def parseVideoFilenameRegex (caps : Nat → String → Option (List (Option String)))
    (singleCaps : String → Option (List (Option String))) (filename : String) :
    Except String SearchTerms :=
  let name := trimVideoExtensions filename
  match tryPatternsList caps name [0, 1, 2, 3, 4, 5, 6, 7] with
  | some st => .ok st
  | none => fallbackTerms singleCaps name

theorem fallbackTerms_total (singleCaps : String → Option (List (Option String)))
    (name : String) : ∃ st, fallbackTerms singleCaps name = .ok st := by
  unfold fallbackTerms
  by_cases h2 : 2 ≤ (splitCamelCase name).length
  · rw [if_pos h2]
    have hs1 : sliceRange (splitCamelCase name) 0 2 =
        .ok (((splitCamelCase name).drop 0).take 2) := by
      rw [sliceRange, if_pos ⟨Nat.zero_le 2, h2⟩]
    rw [hs1]
    dsimp only
    cases hlast : (splitCamelCase name).getLast? with
    | none => exact ⟨_, rfl⟩
    | some last =>
      dsimp only
      cases hvol : parseU32 last with
      | none =>
        dsimp only
        have hs2 : sliceRange (splitCamelCase name) 2 (splitCamelCase name).length =
            .ok (((splitCamelCase name).drop 2).take ((splitCamelCase name).length - 2)) := by
          rw [sliceRange, if_pos ⟨h2, Nat.le_refl _⟩]
        rw [hs2]
        dsimp only
        exact ⟨_, rfl⟩
      | some volume =>
        dsimp only
        by_cases h3 : 3 < (splitCamelCase name).length
        · rw [if_pos h3]
          have hs3 : sliceRange (splitCamelCase name) 2 ((splitCamelCase name).length - 1) =
              .ok (((splitCamelCase name).drop 2).take ((splitCamelCase name).length - 1 - 2)) := by
            rw [sliceRange, if_pos ⟨by omega, by omega⟩]
          rw [hs3]
          dsimp only
          exact ⟨_, rfl⟩
        · rw [if_neg h3]
          exact ⟨_, rfl⟩
  · rw [if_neg h2]
    by_cases h1 : (splitCamelCase name).length = 1
    · rw [if_pos h1]
      cases singleCaps name with
      | none => exact ⟨_, rfl⟩
      | some l => exact ⟨_, rfl⟩
    · rw [if_neg h1]
      exact ⟨_, rfl⟩

/-- C10: the regex classifier is total — for every regex-oracle behavior
and every filename it returns `Ok` with a `SearchTerms`; every pattern
branch and every fallback branch (two or more words, exactly one word,
empty) produces a result, and every Rust slice index in the fallback is in
bounds under its guard. -/
theorem parseVideoFilenameRegex_total
    (caps : Nat → String → Option (List (Option String)))
    (singleCaps : String → Option (List (Option String))) (filename : String) :
    ∃ st, parseVideoFilenameRegex caps singleCaps filename = .ok st := by
  unfold parseVideoFilenameRegex
  dsimp only
  cases htry : tryPatternsList caps (trimVideoExtensions filename) [0, 1, 2, 3, 4, 5, 6, 7] with
  | some st => exact ⟨st, rfl⟩
  | none =>
    dsimp only
    exact fallbackTerms_total singleCaps (trimVideoExtensions filename)

/-! ## Orchestrator (`src/processing.rs`, `process_single_video`)

The external adapters (probe, audio extraction, transcription, LLM,
chapter scraping) and the filesystem reads of the skip branches are an
explicit environment; wall-clock durations are irrelevant to control flow
and recorded as zero.  The outcome carries the per-video result, the final
sidecar state and the list of adapter invocations, so "stage X ran" is a
statement about the trace.
-/

/-- `ProcessingStatus` from `src/processing.rs`. -/
inductive ProcessingStatus where
  | Pending
  | InProgress
  | Completed
  | Failed
  | Skipped
deriving DecidableEq, Repr

/-- The fields of `VideoInfo` the orchestrator reads and writes. -/
structure VideoInfoM where
  duration : ℚ
  width : Nat
  height : Nat
  fps : ℚ
deriving DecidableEq, Repr

/-- The fields of `AudioInfo` the orchestrator reads and writes. -/
structure AudioInfoM where
  path : String
  duration : ℚ
  sample_rate : Nat
deriving DecidableEq, Repr

/-- The fields of `TranscriptionResult` the orchestrator reads and
writes. -/
structure TranscriptionResultM where
  text : String
  srt_path : Option String
  text_path : Option String
  model_used : String
  segment_count : Nat
deriving DecidableEq, Repr

/-- One external adapter invocation. -/
inductive AdapterCall where
  | probe
  | extractAudio
  | transcribe
  | llmCorrections
  | detectChapters
deriving DecidableEq, Repr

/-- The per-video result record (`VideoProcessingResult`), restricted to
the fields the claims mention.  `stages_completed` carries the state-layer
stages (the source re-labels them into its local enum one for one). -/
structure VideoProcessingResultM where
  video_info : VideoInfoM
  audio_info : Option AudioInfoM
  transcription_result : Option TranscriptionResultM
  srt_path : Option String
  text_path : Option String
  chapters : List ChapterInfo
  status : ProcessingStatus
  error_message : Option String
  stages_completed : List ProcessingStage
deriving DecidableEq, Repr

/-- Everything `process_single_video` obtains from outside: adapter
outcomes, configuration, and the filesystem reads of the skip branches. -/
structure PipelineEnv where
  probe : Except String VideoInfoM
  extract : Except String AudioInfoM
  transcribe : Except String TranscriptionResultM
  corrections : Except String (List TextReplacement)
  chapters : Except String (List ChapterInfo)
  llm_enable_correction : Bool
  audio_file_on_disk : Bool
  audio_file_size : Nat
  transcript_file : Option String
  corrected_file : Option String
  srt_file : Option String
  rename_txt_ok : Bool
  write_txt_ok : Bool
  rename_srt_ok : Bool
  write_srt_ok : Bool
deriving Repr

/-- The outcome of one `process_single_video` run. -/
structure PipelineOutcome where
  result : VideoProcessingResultM
  state : VideoProcessingState
  calls : List AdapterCall
deriving DecidableEq, Repr

/-- `f64::abs`. -/
def ratAbs (x : ℚ) : ℚ :=
  if x < 0 then -x else x

/-- `ChapterDetector::validate_chapters`: drop chapters beyond the video
duration, with negative timestamps or with titles shorter than 3 bytes;
sort by timestamp; drop chapters within 5 seconds of an already kept
one. -/
def dedupChapters (acc : List ChapterInfo) : List ChapterInfo → List ChapterInfo
  | [] => acc
  | c :: rest =>
    if acc.any (fun e => decide (ratAbs (e.timestamp - c.timestamp) < 5)) then
      dedupChapters acc rest
    else
      dedupChapters (acc ++ [c]) rest

def validateChapters (chapters : List ChapterInfo) (video_duration : ℚ) : List ChapterInfo :=
  if chapters.isEmpty then []
  else
    let valid := chapters.filter fun c =>
      decide (c.timestamp ≤ video_duration) && decide (0 ≤ c.timestamp) &&
        decide (3 ≤ c.title.utf8ByteSize)
    dedupChapters [] (sortLe chapterLe valid)

/-- Stages 1 and 2 (`VideoAnalysis`, `AudioExtraction`) of
`process_single_video`.  Returns `none` when stage 1 fails (the only early
return of the source); otherwise the state after stage 2, the video info,
the audio info and the calls so far. -/
def runAnalysisAndExtraction (env : PipelineEnv) (now : Nat)
    (state0 : VideoProcessingState) :
    (VideoProcessingResultM × List AdapterCall) ⊕
      (VideoProcessingState × VideoInfoM × Option AudioInfoM × List AdapterCall) :=
  let result0 : VideoProcessingResultM :=
    { video_info := ⟨0, 0, 0, 0⟩, audio_info := none, transcription_result := none,
      srt_path := none, text_path := none, chapters := [], status := .InProgress,
      error_message := none, stages_completed := state0.completed_stages }
  let afterVA :
      (VideoProcessingResultM × List AdapterCall) ⊕
        (VideoProcessingState × VideoInfoM × List AdapterCall) :=
    if canSkipStage state0 .VideoAnalysis then
      .inr (state0,
        ⟨state0.metadata.duration_seconds, state0.metadata.resolution.1,
          state0.metadata.resolution.2, state0.metadata.frame_rate⟩, [])
    else
      match env.probe with
      | .ok vi =>
        .inr (markStageCompleted now
          { state0 with metadata :=
            { state0.metadata with
              duration_seconds := vi.duration,
              resolution := (vi.width, vi.height), frame_rate := vi.fps } }
          .VideoAnalysis 0, vi, [.probe])
      | .error e =>
        .inl ({ result0 with
                status := .Failed,
                error_message := some ("Video analysis failed: " ++ e) }, [.probe])
  match afterVA with
  | .inl out => .inl out
  | .inr (state1, vi, calls1) =>
    if canSkipStage state1 .AudioExtraction then
      let audio :=
        match state1.generated_files.audio_path with
        | some p =>
          if env.audio_file_on_disk then
            some ⟨p, state1.metadata.duration_seconds,
              state1.metadata.audio_sample_rate.getD 44100⟩
          else none
        | none => none
      .inr (state1, vi, audio, calls1)
    else
      match env.extract with
      | .ok ai =>
        .inr (markStageCompleted now
          { state1 with
            generated_files := { state1.generated_files with audio_path := some ai.path },
            metadata := { state1.metadata with audio_sample_rate := some ai.sample_rate } }
          .AudioExtraction 0, vi, some ai, calls1 ++ [.extractAudio])
      | .error _ =>
        .inr (markStageCompleted now state1 .AudioExtraction 0, vi, none,
          calls1 ++ [.extractAudio])

/-- Stage 3 (`Transcription`): only reachable when audio info is present;
a failure is logged, the stage is marked complete anyway. -/
def runTranscription (env : PipelineEnv) (now : Nat) (state2 : VideoProcessingState)
    (audio : Option AudioInfoM) :
    VideoProcessingState × Option TranscriptionResultM × List AdapterCall :=
  match audio with
  | none => (state2, none, [])
  | some _ =>
    if canSkipStage state2 .Transcription then
      match state2.generated_files.raw_transcript_path with
      | some tp =>
        match env.transcript_file with
        | some text =>
          (state2, some
            { text := text, srt_path := state2.generated_files.srt_path,
              text_path := some tp,
              model_used := state2.metadata.transcription_model.getD "unknown",
              segment_count := 0 }, [])
        | none => (state2, none, [])
      | none => (state2, none, [])
    else
      match env.transcribe with
      | .ok tr =>
        (markStageCompleted now
          { state2 with
            generated_files := { state2.generated_files with
              raw_transcript_path := tr.text_path, srt_path := tr.srt_path },
            metadata := { state2.metadata with
              transcription_model := some tr.model_used,
              segment_count := some tr.segment_count } }
          .Transcription 0, some tr, [.transcribe])
      | .error _ =>
        (markStageCompleted now state2 .Transcription 0, none, [.transcribe])

/-- The file rename-and-rewrite protocol of the LLM correction branch
applied to the `.txt` transcript. -/
def applyTxtCorrection (env : PipelineEnv) (output_dir stem : String)
    (state : VideoProcessingState) (tr : TranscriptionResultM) :
    VideoProcessingState × TranscriptionResultM :=
  match tr.text_path with
  | none => (state, tr)
  | some _ =>
    let old_path := output_dir ++ "/" ++ stem ++ "_old.txt"
    let new_path := output_dir ++ "/" ++ stem ++ ".txt"
    if env.rename_txt_ok then
      if env.write_txt_ok then
        ({ state with generated_files := { state.generated_files with
            raw_transcript_path := some new_path,
            corrected_transcript_path := some old_path } },
         { tr with text_path := some new_path })
      else (state, tr)
    else (state, tr)

/-- The same protocol applied to the `.srt` subtitle file. -/
def applySrtCorrection (env : PipelineEnv) (output_dir stem : String)
    (state : VideoProcessingState) (tr : TranscriptionResultM) :
    VideoProcessingState × TranscriptionResultM :=
  match tr.srt_path with
  | none => (state, tr)
  | some _ =>
    match env.srt_file with
    | none => (state, tr)
    | some _ =>
      let new_path := output_dir ++ "/" ++ stem ++ ".srt"
      if env.rename_srt_ok then
        if env.write_srt_ok then
          ({ state with generated_files := { state.generated_files with
              srt_path := some new_path } },
           { tr with srt_path := some new_path })
        else (state, tr)
      else (state, tr)

/-- Stage 4 (`LLMCorrection`): only reachable when a transcription result
is present; gated by configuration; a failure is logged and the stage is
marked complete anyway. -/
def runLLMCorrection (env : PipelineEnv) (now : Nat) (output_dir stem : String)
    (state3 : VideoProcessingState) (transcription : Option TranscriptionResultM) :
    VideoProcessingState × Option TranscriptionResultM × List AdapterCall :=
  match transcription with
  | none => (state3, none, [])
  | some tr =>
    if env.llm_enable_correction && !(canSkipStage state3 .LLMCorrection) then
      match env.corrections with
      | .ok reps =>
        let stateA := { state3 with metadata :=
          { state3.metadata with corrections_applied := some reps.length } }
        if reps.isEmpty then
          (markStageCompleted now stateA .LLMCorrection 0, some tr, [.llmCorrections])
        else
          let tr1 := { tr with text := applyTextReplacements tr.text reps }
          let (stateB, tr2) := applyTxtCorrection env output_dir stem stateA tr1
          let (stateC, tr3) := applySrtCorrection env output_dir stem stateB tr2
          (markStageCompleted now stateC .LLMCorrection 0, some tr3, [.llmCorrections])
      | .error _ =>
        (markStageCompleted now state3 .LLMCorrection 0, some tr, [.llmCorrections])
    else if env.llm_enable_correction then
      match state3.generated_files.corrected_transcript_path with
      | some _ =>
        match env.corrected_file with
        | some text => (state3, some { tr with text := text }, [])
        | none => (state3, some tr, [])
      | none => (state3, some tr, [])
    else
      (markStageCompleted now state3 .LLMCorrection 0, some tr, [])

/-- Stage 5 (`ChapterDetection`): always attempted; a failure sets
`chapters_detected = 0` and the stage is marked complete either way. -/
def runChapterDetection (env : PipelineEnv) (now : Nat)
    (state4 : VideoProcessingState) (vi : VideoInfoM) :
    VideoProcessingState × List ChapterInfo × List AdapterCall :=
  match env.chapters with
  | .ok chs =>
    if 0 < chs.length then
      let validated := validateChapters chs vi.duration
      (markStageCompleted now
        { state4 with metadata :=
          { state4.metadata with chapters_detected := some validated.length } }
        .ChapterDetection 0, validated, [.detectChapters])
    else
      (markStageCompleted now
        { state4 with metadata := { state4.metadata with chapters_detected := some 0 } }
        .ChapterDetection 0, [], [.detectChapters])
  | .error _ =>
    (markStageCompleted now
      { state4 with metadata := { state4.metadata with chapters_detected := some 0 } }
      .ChapterDetection 0, [], [.detectChapters])

/-- `ProcessorState::process_single_video`, assembled from the stage
blocks above. -/
def processSingleVideo (env : PipelineEnv) (now : Nat) (output_dir stem : String)
    (state0 : VideoProcessingState) : PipelineOutcome :=
  match runAnalysisAndExtraction env now state0 with
  | .inl (result, calls) => { result := result, state := state0, calls := calls }
  | .inr (state2, vi, audio, calls2) =>
    let (state3, transcription, calls3) := runTranscription env now state2 audio
    let (state4, transcription2, calls4) :=
      runLLMCorrection env now output_dir stem state3 transcription
    let (state5, chapters, calls5) := runChapterDetection env now state4 vi
    let state6 := markStageCompleted now state5 .Completed 0
    { result :=
      { video_info := vi
        audio_info := audio
        transcription_result := transcription2
        srt_path := transcription2.bind (·.srt_path)
        text_path := transcription2.bind (·.text_path)
        chapters := chapters
        status := .Completed
        error_message := none
        stages_completed := state6.completed_stages }
      state := state6
      calls := calls2 ++ calls3 ++ calls4 ++ calls5 }

/-- A concrete environment in which the probe succeeds and the
audio-extraction adapter fails. -/
def extractionFailureEnv : PipelineEnv :=
  { probe := .ok ⟨600, 1920, 1080, 30⟩
    extract := .error "ExtractionFailed"
    transcribe := .error "unused"
    corrections := .ok []
    chapters := .ok []
    llm_enable_correction := true
    audio_file_on_disk := false
    audio_file_size := 0
    transcript_file := none
    corrected_file := none
    srt_file := none
    rename_txt_ok := true
    write_txt_ok := true
    rename_srt_ok := true
    write_srt_ok := true }

/-- C1: audio-extraction failure is NOT fatal.  On a fresh record with a
successful probe and a failing extraction adapter, the orchestrator
finishes the video with status `Completed`, records no error message,
never reaches stage `Error`, and still runs chapter detection — directly
contradicting the claimed Failed/error_message/Error/no-later-stage
behavior. -/
theorem processSingleVideo_extraction_failure_not_fatal :
    (processSingleVideo extractionFailureEnv 7 "out" "demo"
      (createNewState (fun _ _ => 0) "TestFiles" "demo.mp4" 5 100 6)).result.status =
        ProcessingStatus.Completed ∧
    (processSingleVideo extractionFailureEnv 7 "out" "demo"
      (createNewState (fun _ _ => 0) "TestFiles" "demo.mp4" 5 100 6)).result.error_message =
        none ∧
    (processSingleVideo extractionFailureEnv 7 "out" "demo"
      (createNewState (fun _ _ => 0) "TestFiles" "demo.mp4" 5 100 6)).state.current_stage ≠
        ProcessingStage.Error ∧
    AdapterCall.detectChapters ∈
      (processSingleVideo extractionFailureEnv 7 "out" "demo"
        (createNewState (fun _ _ => 0) "TestFiles" "demo.mp4" 5 100 6)).calls := by
  refine ⟨?_, ?_, ?_, ?_⟩ <;> with_unfolding_all decide

/-- C1 (amended): when the audio-extraction adapter fails on a fresh
record (probe succeeded), the orchestrator logs and continues:
`AudioExtraction` is marked completed anyway, the transcription and LLM
adapters are never invoked (there is no audio), chapter detection still
runs, and the video finishes with status `Completed`, no `error_message`
and a `current_stage` that is never `Error`.  Only `VideoAnalysis`
failure aborts the video early. -/
theorem processSingleVideo_extraction_failure_best_effort
    (env : PipelineEnv) (now : Nat) (output_dir stem : String)
    (state0 : VideoProcessingState) (vi : VideoInfoM) (e : String)
    (hfresh : state0.completed_stages = [])
    (hpend : state0.current_stage = ProcessingStage.Pending)
    (hprobe : env.probe = .ok vi)
    (hextract : env.extract = .error e) :
    (processSingleVideo env now output_dir stem state0).result.status =
        ProcessingStatus.Completed ∧
    (processSingleVideo env now output_dir stem state0).result.error_message = none ∧
    (processSingleVideo env now output_dir stem state0).result.audio_info = none ∧
    ProcessingStage.AudioExtraction ∈
      (processSingleVideo env now output_dir stem state0).state.completed_stages ∧
    (processSingleVideo env now output_dir stem state0).state.current_stage ≠
      ProcessingStage.Error ∧
    AdapterCall.transcribe ∉ (processSingleVideo env now output_dir stem state0).calls ∧
    AdapterCall.llmCorrections ∉ (processSingleVideo env now output_dir stem state0).calls ∧
    AdapterCall.detectChapters ∈ (processSingleVideo env now output_dir stem state0).calls := by
  have hA : runAnalysisAndExtraction env now state0 =
      .inr (markStageCompleted now
          (markStageCompleted now
            { state0 with metadata :=
              { state0.metadata with
                duration_seconds := vi.duration,
                resolution := (vi.width, vi.height), frame_rate := vi.fps } }
            .VideoAnalysis 0)
          .AudioExtraction 0, vi, none, [.probe, .extractAudio]) := by
    unfold runAnalysisAndExtraction
    simp [canSkipStage, hfresh, hprobe, hextract, markStageCompleted]
  unfold processSingleVideo
  rw [hA]
  simp only [runTranscription, runLLMCorrection]
  cases hch : env.chapters with
  | error s =>
    simp [runChapterDetection, hch, markStageCompleted, canSkipStage, hfresh, hpend, nextStage]
  | ok chs =>
    by_cases hlen : 0 < chs.length
    · simp [runChapterDetection, hch, hlen, markStageCompleted, canSkipStage, hfresh, hpend,
        nextStage]
    · simp [runChapterDetection, hch, hlen, markStageCompleted, canSkipStage, hfresh, hpend,
        nextStage]

/-- Witness for the amended C1 theorem at the concrete failing
environment. -/
theorem processSingleVideo_extraction_failure_best_effort_witness :
    (createNewState (fun _ _ => 0) "TestFiles" "demo.mp4" 5 100 6).completed_stages = [] ∧
    extractionFailureEnv.probe = .ok ⟨600, 1920, 1080, 30⟩ ∧
    extractionFailureEnv.extract = .error "ExtractionFailed" ∧
    ((processSingleVideo extractionFailureEnv 7 "out" "demo"
        (createNewState (fun _ _ => 0) "TestFiles" "demo.mp4" 5 100 6)).result.status =
          ProcessingStatus.Completed ∧
      (processSingleVideo extractionFailureEnv 7 "out" "demo"
        (createNewState (fun _ _ => 0) "TestFiles" "demo.mp4" 5 100 6)).result.error_message =
          none ∧
      (processSingleVideo extractionFailureEnv 7 "out" "demo"
        (createNewState (fun _ _ => 0) "TestFiles" "demo.mp4" 5 100 6)).result.audio_info =
          none ∧
      ProcessingStage.AudioExtraction ∈
        (processSingleVideo extractionFailureEnv 7 "out" "demo"
          (createNewState (fun _ _ => 0) "TestFiles" "demo.mp4" 5 100 6)).state.completed_stages ∧
      (processSingleVideo extractionFailureEnv 7 "out" "demo"
        (createNewState (fun _ _ => 0) "TestFiles" "demo.mp4" 5 100 6)).state.current_stage ≠
        ProcessingStage.Error ∧
      AdapterCall.transcribe ∉
        (processSingleVideo extractionFailureEnv 7 "out" "demo"
          (createNewState (fun _ _ => 0) "TestFiles" "demo.mp4" 5 100 6)).calls ∧
      AdapterCall.llmCorrections ∉
        (processSingleVideo extractionFailureEnv 7 "out" "demo"
          (createNewState (fun _ _ => 0) "TestFiles" "demo.mp4" 5 100 6)).calls ∧
      AdapterCall.detectChapters ∈
        (processSingleVideo extractionFailureEnv 7 "out" "demo"
          (createNewState (fun _ _ => 0) "TestFiles" "demo.mp4" 5 100 6)).calls) :=
  ⟨rfl, rfl, rfl,
    processSingleVideo_extraction_failure_best_effort extractionFailureEnv 7 "out" "demo"
      (createNewState (fun _ _ => 0) "TestFiles" "demo.mp4" 5 100 6)
      ⟨600, 1920, 1080, 30⟩ "ExtractionFailed" rfl rfl rfl rfl⟩

end BJJ
